import Mathlib

/-!
# Verification of the spec-driven quality-rule compiler

Shallow embedding of `SpecDrivenParser` (statement extraction, grammar
templates, condition/action synthesis, validation, confidence aggregation,
rule linking) and of the executable-rule evaluation loop of
`AnalysisService.applySpecDrivenRules`, together with proofs settling the
claims about this pipeline.

Modelling conventions:
* JavaScript strings are Lean `String`s (all inputs of interest are ASCII).
* JavaScript numbers that hold rule confidences are `ℚ`; metric values and
  thresholds (always produced by `parseInt` on digit runs) are `Int`.
* A JavaScript exception is an `Except.error`; code that cannot throw is
  embedded as a total function.
* `Date`-valued metadata (`parsedAt`, `compiledAt`) and the random
  violation id (`spec_rule_${Date.now()}_...`) are nondeterministic
  timestamps/identifiers that no claim depends on; they are omitted from
  the embedded records.
* The five grammar templates of `initializePatterns` use JavaScript
  regular expressions.  They are embedded by a small backtracking engine
  (`matchSeq`/`reSearch` below) over an abstract syntax `RE` that covers
  exactly the constructs those regexes use, with JavaScript semantics:
  leftmost match, ordered alternation, greedy/lazy quantifiers with
  backtracking, `$` = end of input (no `m` flag), `.` excludes line
  terminators, case-insensitive literal matching for the `i` flag.
-/

/-- JavaScript `\s` on the character range occurring in trimmed statement
lines and content buffers: space, tab, CR, LF, vertical tab, form feed. -/
def jsWs (c : Char) : Bool :=
  c = ' ' || c = '\t' || c = '\n' || c = '\r' || c = '\x0b' || c = '\x0c'

/-- JavaScript `.` (no `s` flag): any character except a line terminator. -/
def jsDot (c : Char) : Bool :=
  c ≠ '\n' && c ≠ '\r'

/-- JavaScript `\d`. -/
def jsDigit (c : Char) : Bool :=
  '0' ≤ c && c ≤ '9'

/-- JavaScript `\w`. -/
def jsWord (c : Char) : Bool :=
  ('a' ≤ c && c ≤ 'z') || ('A' ≤ c && c ≤ 'Z') || jsDigit c || c = '_'

/-- Case-insensitive character comparison (`i` flag, ASCII). -/
def lowerEq (a b : Char) : Bool :=
  a.toLower = b.toLower

/-- Strip a case-insensitive literal from the head of the input, returning
the rest and the input text actually consumed. -/
def stripCI : List Char → List Char → Option (List Char × List Char)
  | [], cs => some (cs, [])
  | _ :: _, [] => none
  | p :: ps, c :: cs =>
    if lowerEq p c then
      match stripCI ps cs with
      | some (rest, taken) => some (rest, c :: taken)
      | none => none
    else none

/-- Abstract syntax for the regex fragments used by `SpecDrivenParser`. -/
inductive RE where
  /-- case-insensitive literal -/
  | lit (s : String)
  /-- capturing group holding an ordered alternation of literals,
      e.g. `(should|must|shall)` or `(>|<|>=|<=|==|!=)` -/
  | grp (g : Nat) (alts : List String)
  /-- `\s+` (greedy) -/
  | wsPlus
  /-- `\s*` (greedy) -/
  | wsStar
  /-- `(.+?)` capturing, lazy -/
  | anyLazyPlus (g : Nat)
  /-- `(.*?)` capturing, lazy -/
  | anyLazyStar (g : Nat)
  /-- `(.+)` capturing, greedy -/
  | anyGreedyPlus (g : Nat)
  /-- `(\d+)` capturing, greedy -/
  | digitsGreedy (g : Nat)
  /-- `(?: ... )?` greedy optional non-capturing group -/
  | optSeq (ps : List RE)
  /-- `$` without the `m` flag: end of input -/
  | eos
deriving Repr

/-- Capture-group assignment of a successful match: group index paired with
the input substring it captured.  A group absent from the list did not
participate in the match (JavaScript `undefined`). -/
abbrev Groups := List (Nat × String)

/-- Longest prefix of the input consisting of characters satisfying `p`. -/
def takeWhileCount (p : Char → Bool) : List Char → Nat
  | [] => 0
  | c :: cs => if p c then takeWhileCount p cs + 1 else 0

/-- `lenRange lo hi = [lo, lo+1, ..., hi]` (empty when `hi < lo`). -/
def lenRange (lo hi : Nat) : List Nat :=
  (List.range (hi + 1 - lo)).map (· + lo)

mutual

/-- Backtracking matcher: match the sequence of regex nodes `ps` against a
prefix of `cs`, returning the captures and the unconsumed rest.  `fuel`
decreases on every recursive call; all concrete evaluations below supply
ample fuel. -/
def matchSeq : Nat → List RE → List Char → Option (Groups × List Char)
  | 0, _, _ => none
  | _ + 1, [], cs => some ([], cs)
  | fuel + 1, p :: ps, cs =>
    match p with
    | .lit s =>
      match stripCI s.toList cs with
      | some (rest, _) => matchSeq fuel ps rest
      | none => none
    | .grp g alts => tryAlts fuel g alts ps cs
    | .wsPlus => tryLens fuel none ps cs (lenRange 1 (takeWhileCount jsWs cs)).reverse
    | .wsStar => tryLens fuel none ps cs (lenRange 0 (takeWhileCount jsWs cs)).reverse
    | .anyLazyPlus g => tryLens fuel (some g) ps cs (lenRange 1 (takeWhileCount jsDot cs))
    | .anyLazyStar g => tryLens fuel (some g) ps cs (lenRange 0 (takeWhileCount jsDot cs))
    | .anyGreedyPlus g => tryLens fuel (some g) ps cs (lenRange 1 (takeWhileCount jsDot cs)).reverse
    | .digitsGreedy g => tryLens fuel (some g) ps cs (lenRange 1 (takeWhileCount jsDigit cs)).reverse
    | .optSeq qs =>
      -- greedy `(?:...)?`: first try to take the group, then to skip it
      match matchSeq fuel (qs ++ ps) cs with
      | some r => some r
      | none => matchSeq fuel ps cs
    | .eos =>
      match cs with
      | [] => matchSeq fuel ps cs
      | _ :: _ => none

/-- Ordered alternation with backtracking: take the first alternative under
which the rest of the pattern also succeeds (JavaScript semantics). -/
def tryAlts : Nat → Nat → List String → List RE → List Char → Option (Groups × List Char)
  | 0, _, _, _, _ => none
  | _ + 1, _, [], _, _ => none
  | fuel + 1, g, a :: as, ps, cs =>
    match stripCI a.toList cs with
    | some (rest, taken) =>
      match matchSeq fuel ps rest with
      | some (gs, rem) => some ((g, String.mk taken) :: gs, rem)
      | none => tryAlts fuel g as ps cs
    | none => tryAlts fuel g as ps cs

/-- Try the given candidate lengths for a quantified character class in
order (increasing for lazy, decreasing for greedy), recording a capture
when `g` names a group. -/
def tryLens : Nat → Option Nat → List RE → List Char → List Nat → Option (Groups × List Char)
  | 0, _, _, _, _ => none
  | _ + 1, _, _, _, [] => none
  | fuel + 1, g, ps, cs, k :: ks =>
    match matchSeq fuel ps (cs.drop k) with
    | some (gs, rem) =>
      match g with
      | some gi => some ((gi, String.mk (cs.take k)) :: gs, rem)
      | none => some (gs, rem)
    | none => tryLens fuel g ps cs ks

end

/-- Leftmost-match search (JavaScript `String.prototype.match` without the
`g` flag): try each start position left to right. -/
def reSearch (fuel : Nat) (ps : List RE) : List Char → Option (Groups × List Char)
  | [] => matchSeq fuel ps []
  | c :: t =>
    match matchSeq fuel ps (c :: t) with
    | some r => some r
    | none => reSearch fuel ps t

/-- First captured value of group `g`, `none` when the group did not
participate (JavaScript `undefined`). -/
def grp? (gs : Groups) (g : Nat) : Option String :=
  gs.lookup g

/-- Fuel that vastly exceeds the number of backtracking steps any of the
concrete statement-sized inputs below can incur. -/
def rexFuel : Nat := 1000000

/-! ## Data model (`SpecDrivenParser.ts` interfaces)

The `ast` condition variant and the `astQuery`/`autoFix` fields are declared
in the source interfaces but never produced by any code path of the parser;
they are omitted.  Severities travel as plain strings at runtime (the source
casts with `as any` in `mapSeverity`/`createAction`), so `severity` is a
`String` here. -/

/-- A statement extracted from the specification text. -/
structure RuleStatement where
  text : String
  lineNumber : Nat
deriving Repr, DecidableEq

/-- The only two opaque predicates the parser ever builds:
`(content) => true` in `parseQualityRule` and `() => false` in
`parseGenericRule`. -/
inductive CustomPred where
  | alwaysTrue
  | alwaysFalse
deriving Repr, DecidableEq

def CustomPred.eval : CustomPred → String → String → Bool
  | .alwaysTrue, _, _ => true
  | .alwaysFalse, _, _ => false

/-- The regular-expression values stored in `pattern` conditions, one
constructor per `new RegExp`/literal occurring in the parser:
`/console\.log/gi`, `/\bvar\s+\w+/gi`, the escaped-literal
`new RegExp(escape(text), given gi flags)`, and the two interpolated
single-`i`-flag regexes of `parseFunctionRule` and `parseNamingRule`. -/
inductive PatternSpec where
  | consoleLog
  | varDecl
  | litEsc (s : String)
  | funcName (target : String)
  | namedDecl (elementType target : String)
deriving Repr, DecidableEq

/-- `RuleCondition`: tagged union of the condition kinds the parser
constructs.  The metric operator travels as a plain string (the source
casts the captured operator with `as any`). -/
inductive RuleCondition where
  | pattern (p : PatternSpec)
  | metric (name operator : String) (value : Int)
  | custom (p : CustomPred)
deriving Repr, DecidableEq

structure RuleAction where
  type : String
  message : String
  suggestion : Option String
deriving Repr, DecidableEq

/-- `ParsedRule.metadata` without the `parsedAt : Date` timestamp. -/
structure RuleMetadata where
  originalText : String
  confidence : ℚ
deriving Repr, DecidableEq

structure ParsedRule where
  id : String
  condition : RuleCondition
  action : RuleAction
  severity : String
  message : String
  metadata : RuleMetadata
deriving Repr, DecidableEq

structure ParseError where
  line : Nat
  column : Nat
  message : String
  originalText : String
  suggestion : Option String
deriving Repr, DecidableEq

structure ParseMetadata where
  totalRules : Nat
  successfullyParsed : Nat
  confidence : ℚ
deriving Repr, DecidableEq

structure SpecParseResult where
  rules : List ParsedRule
  errors : List ParseError
  warnings : List String
  metadata : ParseMetadata
deriving Repr, DecidableEq

/-- The specification handed to the compiler (optional metadata omitted:
the parser only reads `content`). -/
structure QualitySpec where
  content : String
deriving Repr, DecidableEq

/-! ## String helpers mirroring the JavaScript operations used -/

/-- Case-sensitive list prefix test. -/
def isPrefixCS : List Char → List Char → Bool
  | [], _ => true
  | _ :: _, [] => false
  | a :: as, b :: bs => a = b && isPrefixCS as bs

def subListCS (needle : List Char) : List Char → Bool
  | [] => needle.isEmpty
  | c :: cs => isPrefixCS needle (c :: cs) || subListCS needle cs

/-- JavaScript `String.prototype.includes`. -/
def containsSub (hay needle : String) : Bool :=
  subListCS needle.toList hay.toList

/-- `parseInt` on an all-digit capture. -/
def digitsToInt (s : String) : Int :=
  ((s.toList.foldl (fun acc c => acc * 10 + (c.toNat - '0'.toNat)) 0 : Nat) : Int)

/-- JavaScript `String.prototype.split` with a one-character separator
(structural implementation: the core `String.splitOn` is defined by
well-founded recursion and does not reduce in the kernel). -/
def splitOnChar (sep : Char) : List Char → List (List Char)
  | [] => [[]]
  | c :: cs =>
    if c = sep then [] :: splitOnChar sep cs
    else
      match splitOnChar sep cs with
      | [] => [[c]]
      | h :: t => (c :: h) :: t

def strSplitNL (s : String) : List String :=
  (splitOnChar '\n' s.toList).map String.mk

/-- JavaScript `String.prototype.trim`. -/
def trimChars (cs : List Char) : List Char :=
  ((cs.dropWhile jsWs).reverse.dropWhile jsWs).reverse

def strTrim (s : String) : String :=
  String.mk (trimChars s.toList)

/-- JavaScript `String.prototype.toLowerCase` (ASCII). -/
def strToLower (s : String) : String :=
  String.mk (s.toList.map Char.toLower)

/-- JavaScript `String.prototype.startsWith`. -/
def strStartsWith (s pre : String) : Bool :=
  isPrefixCS pre.toList s.toList

/-! The `number` literals of the source (rule confidences and thresholds)
as rationals in already-normalized form, so that comparisons on them
kernel-reduce (`Rat` division normalizes through `Nat.gcd`, which is
defined by well-founded recursion and is opaque to kernel reduction). -/

/-- 0.9 -/
def q09 : ℚ := ⟨9, 10, by norm_num, by norm_num⟩
/-- 0.85 -/
def q085 : ℚ := ⟨17, 20, by norm_num, by norm_num⟩
/-- 0.8 -/
def q08 : ℚ := ⟨4, 5, by norm_num, by norm_num⟩
/-- 0.75 -/
def q075 : ℚ := ⟨3, 4, by norm_num, by norm_num⟩
/-- 0.7 -/
def q07 : ℚ := ⟨7, 10, by norm_num, by norm_num⟩
/-- 0.3 -/
def q03 : ℚ := ⟨3, 10, by norm_num, by norm_num⟩
/-- 0.5 -/
def q05 : ℚ := ⟨1, 2, by norm_num, by norm_num⟩

theorem q09_eq : q09 = 9/10 := by rw [q09, Rat.mk'_eq_divInt, Rat.divInt_eq_div]; norm_num
theorem q085_eq : q085 = 17/20 := by rw [q085, Rat.mk'_eq_divInt, Rat.divInt_eq_div]; norm_num
theorem q08_eq : q08 = 4/5 := by rw [q08, Rat.mk'_eq_divInt, Rat.divInt_eq_div]; norm_num
theorem q075_eq : q075 = 3/4 := by rw [q075, Rat.mk'_eq_divInt, Rat.divInt_eq_div]; norm_num
theorem q07_eq : q07 = 7/10 := by rw [q07, Rat.mk'_eq_divInt, Rat.divInt_eq_div]; norm_num
theorem q03_eq : q03 = 3/10 := by rw [q03, Rat.mk'_eq_divInt, Rat.divInt_eq_div]; norm_num
theorem q05_eq : q05 = 1/2 := by rw [q05, Rat.mk'_eq_divInt, Rat.divInt_eq_div]; norm_num

/-! ## Lexicon and statement extraction -/

/-- `initializeKeywordMappings`: the merged severity/action lexicon. -/
def keywordMappings : List (String × String) :=
  [("must", "error"), ("shall", "error"), ("should", "warning"), ("may", "info"),
   ("critical", "critical"), ("error", "error"), ("warning", "warning"), ("info", "info"),
   ("warn", "warning"), ("flag", "violation"), ("suggest", "suggestion"),
   ("block", "violation"), ("allow", "suggestion")]

/-- `mapSeverity`: `this.keywordMappings.get(text) as any || 'warning'`. -/
def mapSeverity (severityText : String) : String :=
  (keywordMappings.lookup (strToLower severityText)).getD "warning"

/-- `extractRuleStatements`: split on line boundaries, trim, drop empty
lines and `#`/`//` comments, tag with the 1-based source line number. -/
def extractRuleStatements (content : String) : List RuleStatement :=
  (strSplitNL content).enum.filterMap fun p =>
    let line := strTrim p.2
    if line = "" || strStartsWith line "#" || strStartsWith line "//" then none
    else some { text := line, lineNumber := p.1 + 1 }

/-! ## Condition/action synthesis (`parseCondition` / `parseAction`) -/

/-- `/(.*?)\s*(>|<|>=|<=|==|!=)\s*(\d+)/` of `parseCondition`. -/
def metricCondRE : List RE :=
  [.anyLazyStar 1, .wsStar, .grp 2 [">", "<", ">=", "<=", "==", "!="], .wsStar, .digitsGreedy 3]

/-- `/more than (\d+)/` of `parseCondition`. -/
def moreThanRE : List RE :=
  [.lit "more than ", .digitsGreedy 1]

/-- `/(.*?)(contains|includes|has)\s+/` used by `text.replace(..., '')`. -/
def replContainsRE : List RE :=
  [.anyLazyStar 1, .grp 2 ["contains", "includes", "has"], .wsPlus]

/-- `parseCondition`: ordered heuristics over the lowercased, trimmed
condition phrase.  In branch (e) the `replace` always matches starting at
index 0 when it matches at all (the leading `(.*?)` can reach any keyword
occurrence, condition phrases never contain a line break), so the replaced
result is exactly the input rest after the matched segment. -/
def parseCondition (conditionText : String) : RuleCondition :=
  let text := strTrim (strToLower conditionText)
  match reSearch rexFuel metricCondRE text.toList with
  | some (gs, _) =>
    .metric (strTrim ((grp? gs 1).getD "")) ((grp? gs 2).getD "")
      (digitsToInt ((grp? gs 3).getD ""))
  | none =>
    if containsSub text "console.log" then .pattern .consoleLog
    else if containsSub text "var declaration" || containsSub text "uses var" then
      .pattern .varDecl
    else
      match (if containsSub text "function" && containsSub text "more than" then
               reSearch rexFuel moreThanRE text.toList
             else none) with
      | some (gs, _) => .metric "function lines" ">" (digitsToInt ((grp? gs 1).getD ""))
      | none =>
        if containsSub text "contains" || containsSub text "includes" || containsSub text "has" then
          let pat :=
            match reSearch rexFuel replContainsRE text.toList with
            | some (_, rest) => String.mk rest
            | none => text
          .pattern (.litEsc pat)
        else .pattern (.litEsc text)

/-- `parseAction`: classify the action phrase, keeping it verbatim as the
message. -/
def parseAction (actionText : String) : RuleAction :=
  let text := strTrim (strToLower actionText)
  if containsSub text "warn" || containsSub text "warning" then
    { type := "warning", message := actionText,
      suggestion := some ("Consider addressing: " ++ actionText) }
  else if containsSub text "suggest" || containsSub text "recommend" then
    { type := "suggestion", message := actionText, suggestion := some actionText }
  else
    { type := "violation", message := actionText, suggestion := some ("Fix: " ++ actionText) }

/-! ## Grammar templates and builders (`initializePatterns`) -/

/-- `/WHEN\s+(.+?)\s+THEN\s+(.+?)(?:\s+SHALL\s+(.+?))?$/i` -/
def whenThenRE : List RE :=
  [.lit "when", .wsPlus, .anyLazyPlus 1, .wsPlus, .lit "then", .wsPlus, .anyLazyPlus 2,
   .optSeq [.wsPlus, .lit "shall", .wsPlus, .anyLazyPlus 3], .eos]

/-- `/IF\s+(.+?)\s+THEN\s+(.+?)(?:\s+SHALL\s+(.+?))?$/i` -/
def ifThenRE : List RE :=
  [.lit "if", .wsPlus, .anyLazyPlus 1, .wsPlus, .lit "then", .wsPlus, .anyLazyPlus 2,
   .optSeq [.wsPlus, .lit "shall", .wsPlus, .anyLazyPlus 3], .eos]

/-- `/(function|method)\s+(.+?)\s+(should|must|shall)\s+(.+)/i` -/
def functionRuleRE : List RE :=
  [.grp 1 ["function", "method"], .wsPlus, .anyLazyPlus 2, .wsPlus,
   .grp 3 ["should", "must", "shall"], .wsPlus, .anyGreedyPlus 4]

/-- `/(variable|constant|class|interface)\s+(.+?)\s+(should|must|shall)\s+(.+)/i` -/
def namingRuleRE : List RE :=
  [.grp 1 ["variable", "constant", "class", "interface"], .wsPlus, .anyLazyPlus 2, .wsPlus,
   .grp 3 ["should", "must", "shall"], .wsPlus, .anyGreedyPlus 4]

/-- `/code\s+(should|must|shall)\s+(.+)/i` -/
def qualityRuleRE : List RE :=
  [.lit "code", .wsPlus, .grp 1 ["should", "must", "shall"], .wsPlus, .anyGreedyPlus 2]

/-- Parenthesis balance: never negative, zero at the end. -/
def parenBalance : List Char → Int → Bool
  | [], d => d = 0
  | c :: cs, d =>
    if c = '(' then parenBalance cs (d + 1)
    else if c = ')' then decide (0 < d) && parenBalance cs (d - 1)
    else parenBalance cs d

/-- Modelled platform behavior: `parseFunctionRule` and `parseNamingRule`
interpolate the raw captured `target` into
`new RegExp("...\\s+\\w*" + target + "\\w*", "i")`, which throws a
`SyntaxError` when the resulting pattern is syntactically invalid.  We
model the group-balance aspect of that partiality: construction fails iff
the parentheses of `target` are unbalanced (an unterminated or unmatched
group, the failure mode exercised in the proofs below); other invalid
shapes and escape sequences inside `target` are not modelled. -/
def regexInterpValid (target : String) : Bool :=
  parenBalance target.toList 0

/-- Reading a capture that the regex guarantees: in JavaScript, calling
`.trim()` on an `undefined` group would throw, so a missing mandatory
capture surfaces as a builder failure. -/
def need (o : Option String) : Except String String :=
  match o with
  | some s => .ok s
  | none => .error "TypeError: undefined capture"

/-- `parseWhenThenRule`.  `match[3] ? mapSeverity(match[3]) : 'warning'`
checks the truthiness of the optional SHALL capture. -/
def parseWhenThenRule (gs : Groups) (stmt : RuleStatement) (idx : Nat) :
    Except String ParsedRule :=
  match need (grp? gs 1), need (grp? gs 2) with
  | .ok c1, .ok c2 =>
    let condition := strTrim c1
    let action := strTrim c2
    let severity :=
      match grp? gs 3 with
      | some s3 => if s3 = "" then "warning" else mapSeverity s3
      | none => "warning"
    .ok { id := "when_then_" ++ toString idx,
          condition := parseCondition condition,
          action := parseAction action,
          severity := severity,
          message := condition ++ " - " ++ action,
          metadata := { originalText := stmt.text, confidence := q09 } }
  | .error e, _ => .error e
  | _, .error e => .error e

/-- `parseIfThenRule`. -/
def parseIfThenRule (gs : Groups) (stmt : RuleStatement) (idx : Nat) :
    Except String ParsedRule :=
  match need (grp? gs 1), need (grp? gs 2) with
  | .ok c1, .ok c2 =>
    let condition := strTrim c1
    let action := strTrim c2
    let severity :=
      match grp? gs 3 with
      | some s3 => if s3 = "" then "warning" else mapSeverity s3
      | none => "warning"
    .ok { id := "if_then_" ++ toString idx,
          condition := parseCondition condition,
          action := parseAction action,
          severity := severity,
          message := condition ++ " - " ++ action,
          metadata := { originalText := stmt.text, confidence := q085 } }
  | .error e, _ => .error e
  | _, .error e => .error e

/-- `parseFunctionRule`: builds
`new RegExp("function\\s+\\w*" + target + "\\w*", "i")`, which can throw. -/
def parseFunctionRule (gs : Groups) (stmt : RuleStatement) (idx : Nat) :
    Except String ParsedRule :=
  match need (grp? gs 2), need (grp? gs 3), need (grp? gs 4) with
  | .ok m2, .ok m3, .ok m4 =>
    let target := strTrim m2
    let severity := mapSeverity m3
    let requirement := strTrim m4
    if regexInterpValid target then
      .ok { id := "function_" ++ toString idx,
            condition := .pattern (.funcName target),
            action := { type := "violation",
                        message := "Function " ++ target ++ " " ++ requirement,
                        suggestion := some ("Ensure function " ++ target ++
                          " meets requirement: " ++ requirement) },
            severity := severity,
            message := "Function " ++ target ++ " " ++ requirement,
            metadata := { originalText := stmt.text, confidence := q08 } }
    else .error "SyntaxError: Invalid regular expression"
  | .error e, _, _ => .error e
  | _, .error e, _ => .error e
  | _, _, .error e => .error e

/-- `parseNamingRule`: interpolates `elementType` (safe, from the
alternation) and the raw `target` into a regex, which can throw. -/
def parseNamingRule (gs : Groups) (stmt : RuleStatement) (idx : Nat) :
    Except String ParsedRule :=
  match need (grp? gs 1), need (grp? gs 2), need (grp? gs 3), need (grp? gs 4) with
  | .ok m1, .ok m2, .ok m3, .ok m4 =>
    let elementType := strTrim m1
    let target := strTrim m2
    let severity := mapSeverity m3
    let requirement := strTrim m4
    if regexInterpValid target then
      .ok { id := "naming_" ++ toString idx,
            condition := .pattern (.namedDecl elementType target),
            action := { type := "violation",
                        message := elementType ++ " " ++ target ++ " " ++ requirement,
                        suggestion := some ("Ensure " ++ elementType ++
                          " naming follows requirement: " ++ requirement) },
            severity := severity,
            message := elementType ++ " " ++ target ++ " " ++ requirement,
            metadata := { originalText := stmt.text, confidence := q075 } }
    else .error "SyntaxError: Invalid regular expression"
  | .error e, _, _, _ => .error e
  | _, .error e, _, _ => .error e
  | _, _, .error e, _ => .error e
  | _, _, _, .error e => .error e

/-- `parseQualityRule`: unconditionally-true custom condition. -/
def parseQualityRule (gs : Groups) (stmt : RuleStatement) (idx : Nat) :
    Except String ParsedRule :=
  match need (grp? gs 1), need (grp? gs 2) with
  | .ok m1, .ok m2 =>
    let requirement := strTrim m2
    .ok { id := "quality_" ++ toString idx,
          condition := .custom .alwaysTrue,
          action := { type := "suggestion", message := "Code " ++ requirement,
                      suggestion := some requirement },
          severity := mapSeverity m1,
          message := "Code " ++ requirement,
          metadata := { originalText := stmt.text, confidence := q07 } }
  | .error e, _ => .error e
  | _, .error e => .error e

/-- `parseGenericRule`: the fallback for statements matching no template.
Always succeeds, always sets both condition (never-true predicate) and
action (suggestion replaying the statement text), confidence fixed 0.3. -/
def parseGenericRule (stmt : RuleStatement) (idx : Nat) : Option ParsedRule :=
  let text := strToLower stmt.text
  let severity :=
    if containsSub text "must" || containsSub text "shall" || containsSub text "critical" then
      "error"
    else if containsSub text "should" || containsSub text "warning" then "warning"
    else "info"
  some { id := "generic_" ++ toString idx,
         condition := .custom .alwaysFalse,
         action := { type := "suggestion", message := stmt.text,
                     suggestion := some "Review this quality requirement" },
         severity := severity,
         message := stmt.text,
         metadata := { originalText := stmt.text, confidence := q03 } }

/-- One entry of the `rulePatterns` map: name, match regex, static
confidence weight, and builder (the source field is called `parser`). -/
structure RuleTemplate where
  name : String
  re : List RE
  confidence : ℚ
  build : Groups → RuleStatement → Nat → Except String ParsedRule

/-- The built-in templates in their registration (= iteration) order. -/
def ruleTemplates : List RuleTemplate :=
  [{ name := "when_then", re := whenThenRE, confidence := q09, build := parseWhenThenRule },
   { name := "if_then", re := ifThenRE, confidence := q085, build := parseIfThenRule },
   { name := "function_rule", re := functionRuleRE, confidence := q08, build := parseFunctionRule },
   { name := "naming_rule", re := namingRuleRE, confidence := q075, build := parseNamingRule },
   { name := "quality_rule", re := qualityRuleRE, confidence := q07, build := parseQualityRule }]

/-- `rule.metadata.confidence = pattern.confidence`: the compiler stamps
the static template weight over whatever the builder set. -/
def setConfidence (r : ParsedRule) (c : ℚ) : ParsedRule :=
  { r with metadata := { r.metadata with confidence := c } }

/-- The template-dispatch loop of `parseRuleStatement`: first template
whose regex matches and whose builder succeeds wins; a failing builder is
caught and the loop continues with the next template. -/
def tryTemplates : List RuleTemplate → RuleStatement → Nat → Option ParsedRule
  | [], _, _ => none
  | t :: ts, stmt, idx =>
    match reSearch rexFuel t.re stmt.text.toList with
    | some (gs, _) =>
      match t.build gs stmt idx with
      | .ok rule => some (setConfidence rule t.confidence)
      | .error _ => tryTemplates ts stmt idx
    | none => tryTemplates ts stmt idx

/-- `parseRuleStatement`: template dispatch, then the generic fallback. -/
def parseRuleStatement (stmt : RuleStatement) (idx : Nat) : Option ParsedRule :=
  match tryTemplates ruleTemplates stmt idx with
  | some r => some r
  | none => parseGenericRule stmt idx

/-! ## Validation, confidence aggregation, and `parseQualitySpec` -/

structure ValidationResult where
  warnings : List String
  errors : List ParseError
deriving Repr, DecidableEq

/-- `validateRules`: per rule, a duplicate-id warning for every occurrence
beyond the first and a low-confidence warning below 0.7.  The
incomplete-rule check of the source (`!rule.condition || !rule.action`)
guards fields that are mandatory in the `ParsedRule` interface and set by
every builder, so it never fires; the errors list stays empty. -/
def validateStep (acc : List String × List String × List ParseError)
    (rule : ParsedRule) : List String × List String × List ParseError :=
  let seen := acc.1
  let warnings := acc.2.1
  let errors := acc.2.2
  let warnings :=
    if seen.contains rule.id then warnings ++ ["Duplicate rule ID found: " ++ rule.id]
    else warnings
  let warnings :=
    if rule.metadata.confidence < q07 then
      warnings ++ ["Low confidence rule: " ++ rule.id ++ " (" ++
        toString (round (rule.metadata.confidence * 100)) ++ "%)"]
    else warnings
  (seen ++ [rule.id], warnings, errors)

def validateRules (rules : List ParsedRule) : ValidationResult :=
  let res := rules.foldl validateStep ([], [], [])
  { warnings := res.2.1, errors := res.2.2 }

/-- `calculateConfidence`. -/
def calculateConfidence (rules : List ParsedRule) (errors : List ParseError)
    (totalStatements : Nat) : ℚ :=
  if totalStatements = 0 then 0
  else
    let successRate : ℚ :=
      ((totalStatements : ℚ) - (errors.length : ℚ)) / (totalStatements : ℚ)
    let avgRuleConfidence : ℚ :=
      if 0 < rules.length then
        (rules.map fun r => r.metadata.confidence).sum / (rules.length : ℚ)
      else 0
    (successRate + avgRuleConfidence) / 2

/-- The rules constructed by the statement loop of `parseQualitySpec`,
before the confidence filter (the loop index `i + 1` is the 1-based
position of the statement in the whole extracted sequence). -/
def constructedRules (spec : QualitySpec) : List ParsedRule :=
  (extractRuleStatements spec.content).enum.filterMap fun p =>
    parseRuleStatement p.2 (p.1 + 1)

/-- `parseQualitySpec`.  The per-statement `catch` of the source loop is
unreachable: `parseRuleStatement` catches builder failures internally and
the generic fallback is total, so the only errors are the validation
errors. -/
def parseQualitySpec (spec : QualitySpec) : SpecParseResult :=
  let statements := extractRuleStatements spec.content
  let rules := constructedRules spec
  let validation := validateRules rules
  let errors := validation.errors
  let warnings := validation.warnings
  let confidence := calculateConfidence rules errors statements.length
  { rules := rules.filter fun r => decide (q05 < r.metadata.confidence),
    errors := errors,
    warnings := warnings,
    metadata := { totalRules := statements.length,
                  successfullyParsed := rules.length,
                  confidence := confidence } }

/-! ## Metric computation (`calculateMetric` / `compareMetric`) -/

/-- Case-sensitive list prefix strip. -/
def stripCS : List Char → List Char → Option (List Char)
  | [], cs => some cs
  | _ :: _, [] => none
  | p :: ps, c :: cs => if p = c then stripCS ps cs else none

/-- One match attempt of `/function\s+\w+/` (case-sensitive, no `i` flag)
at the head of the input, returning the rest after the match. -/
def matchFunctionDef (cs : List Char) : Option (List Char) :=
  match stripCS "function".toList cs with
  | none => none
  | some rest =>
    let w := takeWhileCount jsWs rest
    if w = 0 then none
    else
      let rest2 := rest.drop w
      let k := takeWhileCount jsWord rest2
      if k = 0 then none else some (rest2.drop k)

/-- `(content.match(/function\s+\w+/g) || []).length`: count of
non-overlapping matches, scanning left to right. -/
def countFunctionDefs : Nat → List Char → Nat
  | 0, _ => 0
  | _ + 1, [] => 0
  | fuel + 1, c :: cs =>
    match matchFunctionDef (c :: cs) with
    | some rest => countFunctionDefs fuel rest + 1
    | none => countFunctionDefs fuel cs

/-- `calculateMetric`: named whole-content metrics, case-insensitive name,
unknown names evaluate to 0. -/
def calculateMetric (content : String) (metricName : String) : Int :=
  let n := strToLower metricName
  if n = "lines" || n = "line count" then ((strSplitNL content).length : Int)
  else if n = "characters" || n = "character count" then (content.length : Int)
  else if n = "functions" then
    ((countFunctionDefs (content.length + 1) content.toList : Nat) : Int)
  else 0

/-- `compareMetric`: unknown operators compare false. -/
def compareMetric (value : Int) (operator : String) (threshold : Int) : Bool :=
  if operator = ">" then decide (value > threshold)
  else if operator = "<" then decide (value < threshold)
  else if operator = ">=" then decide (value ≥ threshold)
  else if operator = "<=" then decide (value ≤ threshold)
  else if operator = "==" then decide (value = threshold)
  else if operator = "!=" then decide (value ≠ threshold)
  else false

/-! ## Rule linking (`createMatcher` / `createAction` /
`convertToExecutableRules`) -/

structure RuleMatch where
  line : Nat
  column : Nat
  text : String
  context : String
deriving Repr, DecidableEq

/-- `RuleViolation` (module `types`) without the nondeterministic
`spec_rule_...` identifier. -/
structure RuleViolation where
  severity : String
  message : String
  line : Nat
  column : Nat
  rule : String
  suggestion : Option String
deriving Repr, DecidableEq

/-- Equality of `Except` results is decidable; used to evaluate builder
outcomes on concrete inputs. -/
instance {ε α : Type} [DecidableEq ε] [DecidableEq α] : DecidableEq (Except ε α) := fun a b =>
  match a, b with
  | .error x, .error y =>
    if h : x = y then .isTrue (by rw [h]) else .isFalse fun hc => h (Except.error.inj hc)
  | .ok x, .ok y =>
    if h : x = y then .isTrue (by rw [h]) else .isFalse fun hc => h (Except.ok.inj hc)
  | .error _, .ok _ => .isFalse Except.noConfusion
  | .ok _, .error _ => .isFalse Except.noConfusion

/-- First match of `needle` (case-insensitive) in the input: 0-based index
and matched text. -/
def findCI (needle : List Char) : List Char → Option (Nat × String)
  | [] => if needle.isEmpty then some (0, "") else none
  | c :: cs =>
    match stripCI needle (c :: cs) with
    | some (_, taken) => some (0, String.mk taken)
    | none => (findCI needle cs).map fun p => (p.1 + 1, p.2)

/-- One match attempt of `/\bvar\s+\w+/i` at the head of the input (the
boundary test is done by the caller), returning the matched text. -/
def varDeclAt (cs : List Char) : Option (List Char) :=
  match stripCI "var".toList cs with
  | none => none
  | some (rest, taken) =>
    let w := takeWhileCount jsWs rest
    if w = 0 then none
    else
      let rest2 := rest.drop w
      let k := takeWhileCount jsWord rest2
      if k = 0 then none
      else some (taken ++ rest.take w ++ rest2.take k)

/-- First match of `/\bvar\s+\w+/i` in a line; the boolean tracks whether
the previous character was a word character (for `\b`). -/
def findVarDecl : Bool → List Char → Option (Nat × String)
  | _, [] => none
  | prevWord, c :: cs =>
    match (if prevWord then none else varDeclAt (c :: cs)) with
    | some txt => some (0, String.mk txt)
    | none => (findVarDecl (jsWord c) cs).map fun p => (p.1 + 1, p.2)

/-- Backtracking over the length of the leading `\w*` in
`\w*<target>\w*`: greedy, so longest first (the caller passes a
decreasing length list). -/
def tryInterpSplit (target : List Char) (cs : List Char) : List Nat → Option (List Char)
  | [] => none
  | j :: js =>
    match stripCI target (cs.drop j) with
    | some (rest3, takenT) =>
      let k2 := takeWhileCount jsWord rest3
      some (cs.take j ++ takenT ++ rest3.take k2)
    | none => tryInterpSplit target cs js

/-- One match attempt of `/<head>\s+\w*<target>\w*/i` at the head of the
input, returning the matched text. -/
def interpAt (head target : List Char) (cs : List Char) : Option (List Char) :=
  match stripCI head cs with
  | none => none
  | some (rest, takenH) =>
    let w := takeWhileCount jsWs rest
    if w = 0 then none
    else
      let rest2 := rest.drop w
      let maxw := takeWhileCount jsWord rest2
      (tryInterpSplit target rest2 (lenRange 0 maxw).reverse).map
        fun tail => takenH ++ rest.take w ++ tail

/-- First match of `/<head>\s+\w*<target>\w*/i` in a line. -/
def findInterp (head target : List Char) : List Char → Option (Nat × String)
  | [] => none
  | c :: cs =>
    match interpAt head target (c :: cs) with
    | some txt => some (0, String.mk txt)
    | none => (findInterp head target cs).map fun p => (p.1 + 1, p.2)

/-- `line.match(regex)` for each stored pattern: first match of the line,
as (0-based index, matched text). -/
def patternFirstMatch : PatternSpec → List Char → Option (Nat × String)
  | .consoleLog, cs => findCI "console.log".toList cs
  | .varDecl, cs => findVarDecl false cs
  | .litEsc s, cs => findCI s.toList cs
  | .funcName target, cs => findInterp "function".toList target.toList cs
  | .namedDecl elementType target, cs => findInterp elementType.toList target.toList cs

/-- Whether the stored pattern carries the `g` flag.  For a global regex,
`line.match` returns the all-matches array, whose `index` property is
`undefined`, so `match.index || 0` yields column 0. -/
def isGlobalSpec : PatternSpec → Bool
  | .consoleLog | .varDecl | .litEsc _ => true
  | .funcName _ | .namedDecl _ _ => false

/-- `createMatcher`: pattern conditions scan line by line (1-based line
numbers); metric conditions compare one whole-content metric and yield a
single file-level match; custom conditions invoke the predicate. -/
def createMatcher (condition : RuleCondition) (content language : String) :
    List RuleMatch :=
  match condition with
  | .pattern p =>
    (strSplitNL content).enum.filterMap fun q =>
      match patternFirstMatch p q.2.toList with
      | some (idx, txt) =>
        some { line := q.1 + 1, column := if isGlobalSpec p then 0 else idx,
               text := txt, context := q.2 }
      | none => none
  | .metric name operator value =>
    let v := calculateMetric content name
    if compareMetric v operator value then
      [{ line := 1, column := 1, text := name ++ ": " ++ toString v,
         context := "File-level metric" }]
    else []
  | .custom p =>
    if p.eval content language then
      [{ line := 1, column := 1, text := "Custom condition matched",
         context := "File-level check" }]
    else []

/-- `createAction`: `message: action.message || message` falls back to the
rule message on an empty action message. -/
def createAction (action : RuleAction) (severity message : String)
    (m : RuleMatch) : RuleViolation :=
  { severity := severity,
    message := if action.message = "" then message else action.message,
    line := m.line,
    column := m.column,
    rule := "spec-driven-rule",
    suggestion := action.suggestion }

/-- `ExecutableRule`: matcher and action may throw (`Except.error`); the
pairs produced by `convertToExecutableRules` never do.  `compiledAt` is
omitted (timestamp). -/
structure ExecutableRule where
  id : String
  matcher : String → String → Except String (List RuleMatch)
  action : RuleMatch → Except String RuleViolation
  originalRule : Option ParsedRule := none

/-- `convertToExecutableRules`. -/
def convertToExecutableRules (parsedRules : List ParsedRule) : List ExecutableRule :=
  parsedRules.map fun rule =>
    { id := rule.id,
      matcher := fun content language =>
        .ok (createMatcher rule.condition content language),
      action := fun m => .ok (createAction rule.action rule.severity rule.message m),
      originalRule := some rule }

/-! ## Execution engine (`AnalysisService.applySpecDrivenRules`, per-batch
loop, source lines 217-227)

The source pushes each violation into a shared array as it is produced;
the per-rule `try`/`catch` wraps both the matcher call and the
per-match action loop.  Hence a matcher failure contributes nothing for
that rule, while an action failure at some match keeps the violations
already pushed for the earlier matches of the same rule. -/

/-- The inner `for (const match of matches)` loop: stop at the first
action failure, keeping the violations already produced. -/
def runMatchLoop (act : RuleMatch → Except String RuleViolation) :
    List RuleMatch → List RuleViolation
  | [] => []
  | m :: ms =>
    match act m with
    | .ok v => v :: runMatchLoop act ms
    | .error _ => []

/-- One iteration of the outer rule loop: the violations rule `r`
contributes to the shared array. -/
def applyRule (r : ExecutableRule) (content language : String) : List RuleViolation :=
  match r.matcher content language with
  | .error _ => []
  | .ok ms => runMatchLoop r.action ms

/-- The whole per-batch loop: rule-registration order, match order within
one rule. -/
def applySpecDrivenRules (rules : List ExecutableRule) (content language : String) :
    List RuleViolation :=
  rules.foldr (fun r acc => applyRule r content language ++ acc) []

/-! ## Helper lemmas -/

theorem parseRuleStatement_isSome (stmt : RuleStatement) (idx : Nat) :
    (parseRuleStatement stmt idx).isSome := by
  unfold parseRuleStatement
  cases h : tryTemplates ruleTemplates stmt idx <;> simp [parseGenericRule]

theorem length_filterMap_of_forall_isSome {α β : Type} (f : α → Option β)
    (l : List α) (h : ∀ a ∈ l, (f a).isSome) :
    (l.filterMap f).length = l.length := by
  induction l with
  | nil => rfl
  | cons a l ih =>
    cases hfa : f a with
    | none => exact absurd (h a (by simp)) (by simp [hfa])
    | some b =>
      simp only [List.filterMap_cons, hfa, List.length_cons]
      exact congrArg (· + 1) (ih fun x hx => h x (by simp [hx]))

theorem validateStep_errors (acc : List String × List String × List ParseError)
    (rule : ParsedRule) : (validateStep acc rule).2.2 = acc.2.2 := by
  simp [validateStep]

theorem validateRules_errors (rules : List ParsedRule) :
    (validateRules rules).errors = [] := by
  unfold validateRules
  suffices h : ∀ acc : List String × List String × List ParseError,
      (rules.foldl validateStep acc).2.2 = acc.2.2 by
    simpa using h ([], [], [])
  induction rules with
  | nil => intro acc; rfl
  | cons r rs ih =>
    intro acc
    simp only [List.foldl_cons]
    rw [ih, validateStep_errors]

theorem parseQualitySpec_errors (spec : QualitySpec) :
    (parseQualitySpec spec).errors = [] := by
  simp [parseQualitySpec, validateRules_errors]

theorem constructedRules_length (spec : QualitySpec) :
    (constructedRules spec).length = (extractRuleStatements spec.content).length := by
  unfold constructedRules
  rw [length_filterMap_of_forall_isSome]
  · exact List.enum_length
  · exact fun p _ => parseRuleStatement_isSome p.2 (p.1 + 1)

theorem setConfidence_id (r : ParsedRule) (c : ℚ) : (setConfidence r c).id = r.id := rfl

theorem setConfidence_conf (r : ParsedRule) (c : ℚ) :
    (setConfidence r c).metadata.confidence = c := rfl

theorem tryTemplates_eq_some (ts : List RuleTemplate) (stmt : RuleStatement)
    (idx : Nat) (r : ParsedRule) (h : tryTemplates ts stmt idx = some r) :
    ∃ t ∈ ts, ∃ gs rest rule,
      reSearch rexFuel t.re stmt.text.toList = some (gs, rest) ∧
      t.build gs stmt idx = .ok rule ∧
      r = setConfidence rule t.confidence := by
  induction ts with
  | nil => simp [tryTemplates] at h
  | cons t ts ih =>
    rcases hsearch : reSearch rexFuel t.re stmt.text.toList with _ | ⟨gs, rest⟩
    · simp only [tryTemplates, hsearch] at h
      obtain ⟨t', ht', rest'⟩ := ih h
      exact ⟨t', List.mem_cons_of_mem t ht', rest'⟩
    · rcases hbuild : t.build gs stmt idx with e | rule
      · simp only [tryTemplates, hsearch, hbuild] at h
        obtain ⟨t', ht', rest'⟩ := ih h
        exact ⟨t', List.mem_cons_of_mem t ht', rest'⟩
      · simp only [tryTemplates, hsearch, hbuild] at h
        exact ⟨t, List.mem_cons_self t ts, gs, rest, rule, hsearch, hbuild,
          (Option.some.inj h).symm⟩

theorem parseWhenThenRule_ok_id (gs : Groups) (stmt : RuleStatement) (idx : Nat)
    (rule : ParsedRule) (h : parseWhenThenRule gs stmt idx = .ok rule) :
    rule.id = "when_then_" ++ toString idx := by
  unfold parseWhenThenRule at h
  split at h
  · obtain rfl := Except.ok.inj h
    rfl
  all_goals exact absurd h (by simp)

theorem parseIfThenRule_ok_id (gs : Groups) (stmt : RuleStatement) (idx : Nat)
    (rule : ParsedRule) (h : parseIfThenRule gs stmt idx = .ok rule) :
    rule.id = "if_then_" ++ toString idx := by
  unfold parseIfThenRule at h
  split at h
  · obtain rfl := Except.ok.inj h
    rfl
  all_goals exact absurd h (by simp)

theorem parseFunctionRule_ok_id (gs : Groups) (stmt : RuleStatement) (idx : Nat)
    (rule : ParsedRule) (h : parseFunctionRule gs stmt idx = .ok rule) :
    rule.id = "function_" ++ toString idx := by
  unfold parseFunctionRule at h
  split at h
  · dsimp only at h
    split at h
    · obtain rfl := Except.ok.inj h
      rfl
    · exact absurd h (by simp)
  all_goals exact absurd h (by simp)

theorem parseNamingRule_ok_id (gs : Groups) (stmt : RuleStatement) (idx : Nat)
    (rule : ParsedRule) (h : parseNamingRule gs stmt idx = .ok rule) :
    rule.id = "naming_" ++ toString idx := by
  unfold parseNamingRule at h
  split at h
  · dsimp only at h
    split at h
    · obtain rfl := Except.ok.inj h
      rfl
    · exact absurd h (by simp)
  all_goals exact absurd h (by simp)

theorem parseQualityRule_ok_id (gs : Groups) (stmt : RuleStatement) (idx : Nat)
    (rule : ParsedRule) (h : parseQualityRule gs stmt idx = .ok rule) :
    rule.id = "quality_" ++ toString idx := by
  unfold parseQualityRule at h
  split at h
  · obtain rfl := Except.ok.inj h
    rfl
  all_goals exact absurd h (by simp)

theorem parseRuleStatement_id (stmt : RuleStatement) (idx : Nat) (r : ParsedRule)
    (h : parseRuleStatement stmt idx = some r) :
    ∃ stem ∈ (["when_then", "if_then", "function", "naming", "quality", "generic"] :
      List String), r.id = stem ++ "_" ++ toString idx := by
  cases htt : tryTemplates ruleTemplates stmt idx with
  | some r' =>
    simp only [parseRuleStatement, htt] at h
    obtain rfl := Option.some.inj h
    obtain ⟨t, ht, gs, rest, rule, hsearch, hbuild, hr⟩ := tryTemplates_eq_some _ _ _ _ htt
    subst hr
    rw [setConfidence_id]
    simp only [ruleTemplates, List.mem_cons, List.not_mem_nil, or_false] at ht
    rcases ht with rfl | rfl | rfl | rfl | rfl
    · exact ⟨"when_then", by simp, parseWhenThenRule_ok_id gs stmt idx rule hbuild⟩
    · exact ⟨"if_then", by simp, parseIfThenRule_ok_id gs stmt idx rule hbuild⟩
    · exact ⟨"function", by simp, parseFunctionRule_ok_id gs stmt idx rule hbuild⟩
    · exact ⟨"naming", by simp, parseNamingRule_ok_id gs stmt idx rule hbuild⟩
    · exact ⟨"quality", by simp, parseQualityRule_ok_id gs stmt idx rule hbuild⟩
  | none =>
    simp only [parseRuleStatement, htt, parseGenericRule] at h
    obtain rfl := Option.some.inj h
    exact ⟨"generic", by simp, rfl⟩

theorem parseRuleStatement_conf (stmt : RuleStatement) (idx : Nat) (r : ParsedRule)
    (h : parseRuleStatement stmt idx = some r) :
    r.metadata.confidence ∈ ([9/10, 17/20, 4/5, 3/4, 7/10, 3/10] : List ℚ) := by
  cases htt : tryTemplates ruleTemplates stmt idx with
  | some r' =>
    simp only [parseRuleStatement, htt] at h
    obtain rfl := Option.some.inj h
    obtain ⟨t, ht, gs, rest, rule, hsearch, hbuild, hr⟩ := tryTemplates_eq_some _ _ _ _ htt
    subst hr
    rw [setConfidence_conf]
    simp only [ruleTemplates, List.mem_cons, List.not_mem_nil, or_false] at ht
    rcases ht with rfl | rfl | rfl | rfl | rfl <;>
      simp [q09_eq, q085_eq, q08_eq, q075_eq, q07_eq]
  | none =>
    simp only [parseRuleStatement, htt, parseGenericRule] at h
    obtain rfl := Option.some.inj h
    simp [q03_eq]

theorem parseRuleStatement_conf_bounds (stmt : RuleStatement) (idx : Nat)
    (r : ParsedRule) (h : parseRuleStatement stmt idx = some r) :
    0 ≤ r.metadata.confidence ∧ r.metadata.confidence ≤ 1 := by
  have hm := parseRuleStatement_conf stmt idx r h
  simp only [List.mem_cons, List.not_mem_nil, or_false] at hm
  rcases hm with h' | h' | h' | h' | h' | h' <;> rw [h'] <;> norm_num

theorem constructedRules_mem (spec : QualitySpec) (r : ParsedRule)
    (h : r ∈ constructedRules spec) :
    ∃ stmt idx, parseRuleStatement stmt idx = some r := by
  unfold constructedRules at h
  obtain ⟨p, _, hpr⟩ := List.mem_filterMap.mp h
  exact ⟨p.2, p.1 + 1, hpr⟩

theorem listSum_nonneg (l : List ℚ) (h : ∀ x ∈ l, 0 ≤ x) : 0 ≤ l.sum := by
  induction l with
  | nil => simp
  | cons a l ih =>
    simp only [List.sum_cons]
    have ha := h a (by simp)
    have hl := ih fun x hx => h x (by simp [hx])
    linarith

theorem listSum_le_length (l : List ℚ) (h : ∀ x ∈ l, x ≤ 1) :
    l.sum ≤ (l.length : ℚ) := by
  induction l with
  | nil => simp
  | cons a l ih =>
    simp only [List.sum_cons, List.length_cons]
    push_cast
    have ha := h a (by simp)
    have hl := ih fun x hx => h x (by simp [hx])
    linarith

/-! ## Claims -/

/-- C2: for every specification text, the usable rule collection returned
by compile contains no rule with confidence ≤ 0.5, while `total_rules`
equals the number of extracted statements and `successfully_parsed` equals
the number of rules constructed before the 0.5 confidence filter. -/
theorem claim_C2 (spec : QualitySpec) :
    (∀ r ∈ (parseQualitySpec spec).rules, (1 : ℚ)/2 < r.metadata.confidence) ∧
    (parseQualitySpec spec).metadata.totalRules =
      (extractRuleStatements spec.content).length ∧
    (parseQualitySpec spec).metadata.successfullyParsed =
      (constructedRules spec).length := by
  refine ⟨?_, rfl, rfl⟩
  intro r hr
  simp only [parseQualitySpec, List.mem_filter] at hr
  have h' := of_decide_eq_true hr.2
  rwa [q05_eq] at h'

theorem claim_C2_witness :
    (1 : ℚ)/2 <
      (ParsedRule.mk "when_then_1" (.pattern (.litEsc "a"))
        ⟨"violation", "b", some "Fix: b"⟩ "warning" "a - b"
        ⟨"WHEN a THEN b", q09⟩).metadata.confidence :=
  (claim_C2 ⟨"WHEN a THEN b"⟩).1 _ (by decide)

/-- C9: every extracted statement yields exactly one constructed rule
(builder failures fall through to the always-succeeding fallback, which
sets both condition and action), so compile always returns an empty errors
sequence and `successfully_parsed` always equals `total_rules`.  The
incomplete-rule error branch of the validator is unreachable: both fields
are mandatory in `ParsedRule` and every constructor sets them, so
`validateRules` never emits an error (`validateRules_errors`). -/
theorem claim_C9 (spec : QualitySpec) :
    (constructedRules spec).length = (extractRuleStatements spec.content).length ∧
    (parseQualitySpec spec).errors = [] ∧
    (parseQualitySpec spec).metadata.successfullyParsed =
      (parseQualitySpec spec).metadata.totalRules :=
  ⟨constructedRules_length spec, parseQualitySpec_errors spec,
    constructedRules_length spec⟩

/-- C6: the overall confidence equals the average of the success rate
(0 when there are no statements) and the mean confidence of all parsed
rules (0 when there are none); it lies in [0,1] and is 0 for empty text. -/
theorem claim_C6 (spec : QualitySpec) :
    (parseQualitySpec spec).metadata.confidence =
      ((if (extractRuleStatements spec.content).length = 0 then 0
        else (((extractRuleStatements spec.content).length : ℚ) -
              ((parseQualitySpec spec).errors.length : ℚ)) /
             ((extractRuleStatements spec.content).length : ℚ)) +
       (if constructedRules spec = [] then 0
        else ((constructedRules spec).map fun r => r.metadata.confidence).sum /
             ((constructedRules spec).length : ℚ))) / 2 ∧
    0 ≤ (parseQualitySpec spec).metadata.confidence ∧
    (parseQualitySpec spec).metadata.confidence ≤ 1 ∧
    (spec.content = "" → (parseQualitySpec spec).metadata.confidence = 0) := by
  have herr : (parseQualitySpec spec).errors = [] := parseQualitySpec_errors spec
  have hlen := constructedRules_length spec
  have hbounds : ∀ r ∈ constructedRules spec,
      0 ≤ r.metadata.confidence ∧ r.metadata.confidence ≤ 1 := by
    intro r hr
    obtain ⟨stmt, idx, hps⟩ := constructedRules_mem spec r hr
    exact parseRuleStatement_conf_bounds stmt idx r hps
  have hcalc : (parseQualitySpec spec).metadata.confidence =
      calculateConfidence (constructedRules spec) (parseQualitySpec spec).errors
        (extractRuleStatements spec.content).length := rfl
  rw [herr] at hcalc
  by_cases h0 : (extractRuleStatements spec.content).length = 0
  · have hr0 : constructedRules spec = [] :=
      List.eq_nil_of_length_eq_zero (hlen.trans h0)
    have hval : (parseQualitySpec spec).metadata.confidence = 0 := by
      rw [hcalc]; simp [calculateConfidence, h0]
    refine ⟨?_, ?_, ?_, fun _ => hval⟩
    · rw [hval, if_pos h0, if_pos hr0]; norm_num
    · rw [hval]
    · rw [hval]; norm_num
  · have hnpos : (0 : ℚ) < ((extractRuleStatements spec.content).length : ℚ) := by
      exact_mod_cast Nat.pos_of_ne_zero h0
    have havg0 : 0 ≤ (if constructedRules spec = [] then (0 : ℚ)
        else ((constructedRules spec).map fun r => r.metadata.confidence).sum /
             ((constructedRules spec).length : ℚ)) := by
      split
      · exact le_refl 0
      · apply div_nonneg
        · apply listSum_nonneg
          intro x hx
          obtain ⟨r, hr, rfl⟩ := List.mem_map.mp hx
          exact (hbounds r hr).1
        · positivity
    have havg1 : (if constructedRules spec = [] then (0 : ℚ)
        else ((constructedRules spec).map fun r => r.metadata.confidence).sum /
             ((constructedRules spec).length : ℚ)) ≤ 1 := by
      split
      · norm_num
      next hne =>
        have hrpos : (0 : ℚ) < ((constructedRules spec).length : ℚ) := by
          have := List.length_pos.mpr hne
          exact_mod_cast this
        rw [div_le_one hrpos]
        have hs := listSum_le_length ((constructedRules spec).map fun r => r.metadata.confidence)
          (by intro x hx
              obtain ⟨r, hr, rfl⟩ := List.mem_map.mp hx
              exact (hbounds r hr).2)
        simpa using hs
    have hval : (parseQualitySpec spec).metadata.confidence =
        (1 + (if constructedRules spec = [] then (0 : ℚ)
          else ((constructedRules spec).map fun r => r.metadata.confidence).sum /
               ((constructedRules spec).length : ℚ))) / 2 := by
      rw [hcalc]
      unfold calculateConfidence
      rw [if_neg h0]
      have h1 : ((extractRuleStatements spec.content).length : ℚ) -
          ((List.length ([] : List ParseError)) : ℚ) = (extractRuleStatements spec.content).length := by
        simp
      have h2 : (if 0 < (constructedRules spec).length then
            ((constructedRules spec).map fun r => r.metadata.confidence).sum /
              ((constructedRules spec).length : ℚ)
          else 0) =
          (if constructedRules spec = [] then (0 : ℚ)
          else ((constructedRules spec).map fun r => r.metadata.confidence).sum /
               ((constructedRules spec).length : ℚ)) := by
        cases constructedRules spec <;> simp
      rw [h1, h2, div_self (ne_of_gt hnpos)]
    refine ⟨?_, ?_, ?_, ?_⟩
    · rw [hval, if_neg h0, herr]
      simp only [List.length_nil, Nat.cast_zero, sub_zero]
      rw [div_self (ne_of_gt hnpos)]
    · rw [hval]; linarith
    · rw [hval]; linarith
    · intro hc
      exfalso
      apply h0
      rw [hc]
      decide

theorem claim_C6_witness :
    ("" : String) = "" ∧ (parseQualitySpec ⟨""⟩).metadata.confidence = 0 :=
  ⟨rfl, (claim_C6 ⟨""⟩).2.2.2 rfl⟩

theorem tryTemplates_none (ts : List RuleTemplate) (stmt : RuleStatement) (idx : Nat)
    (h : ∀ t ∈ ts, reSearch rexFuel t.re stmt.text.toList = none) :
    tryTemplates ts stmt idx = none := by
  induction ts with
  | nil => rfl
  | cons t ts ih =>
    simp only [tryTemplates, h t (by simp)]
    exact ih fun t' ht' => h t' (by simp [ht'])

theorem enumFrom_filterMap_id (stmts : List RuleStatement) :
    ∀ (n i : Nat) (r : ParsedRule),
      ((stmts.enumFrom n).filterMap fun p => parseRuleStatement p.2 (p.1 + 1)).get? i
        = some r →
      ∃ stem ∈ (["when_then", "if_then", "function", "naming", "quality", "generic"] :
        List String), r.id = stem ++ "_" ++ toString (n + i + 1) := by
  induction stmts with
  | nil => intro n i r h; simp at h
  | cons s rest ih =>
    intro n i r h
    obtain ⟨r0, hr0⟩ := Option.isSome_iff_exists.mp (parseRuleStatement_isSome s (n + 1))
    rw [List.enumFrom_cons] at h
    simp only [List.filterMap_cons, hr0] at h
    cases i with
    | zero =>
      simp only [List.get?_cons_zero] at h
      obtain rfl := Option.some.inj h
      simpa using parseRuleStatement_id s (n + 1) r0 hr0
    | succ j =>
      simp only [List.get?_cons_succ] at h
      obtain ⟨stem, hstem, hid⟩ := ih (n + 1) j r h
      refine ⟨stem, hstem, ?_⟩
      rw [hid]
      have : n + 1 + j + 1 = n + (j + 1) + 1 := by omega
      rw [this]

/-- C1 (amended): the identifier of each rule produced by compilation is
`<template-stem>_<k>` where `k` is the 1-based position of its source
statement among ALL extracted statements of the compilation (the loop
passes the global statement index to every builder); the counter is shared
across templates, not scoped per template name. -/
theorem claim_C1_amended (spec : QualitySpec) (i : Nat) (r : ParsedRule)
    (h : (constructedRules spec).get? i = some r) :
    r.id ∈ (["when_then", "if_then", "function", "naming", "quality", "generic"].map
      fun stem => stem ++ "_" ++ toString (i + 1)) := by
  unfold constructedRules at h
  obtain ⟨stem, hstem, hid⟩ := enumFrom_filterMap_id (extractRuleStatements spec.content) 0 i r
    (by simpa [List.enum] using h)
  simp only [Nat.zero_add] at hid
  exact List.mem_map.mpr ⟨stem, hstem, hid.symm⟩

theorem claim_C1_amended_witness :
    "if_then_2" ∈ (["when_then", "if_then", "function", "naming", "quality", "generic"].map
      fun stem => stem ++ "_" ++ toString (1 + 1)) :=
  claim_C1_amended ⟨"WHEN a THEN b\nIF c THEN d"⟩ 1
    ⟨"if_then_2", .pattern (.litEsc "c"),
      ⟨"violation", "d", some "Fix: d"⟩, "warning", "c - d",
      ⟨"IF c THEN d", q085⟩⟩ (by decide)

/-- C1 (counterexample): in a document whose first statement matches
WHEN/THEN and whose second statement matches IF/THEN, the second rule gets
identifier `if_then_2` (its global statement ordinal), not the `if_then_1`
the claim requires from a per-template counter. -/
theorem claim_C1_counterexample :
    (constructedRules ⟨"WHEN a THEN b\nIF c THEN d"⟩).map (fun r => r.id)
        = ["when_then_1", "if_then_2"] ∧
    "if_then_1" ∉ (constructedRules ⟨"WHEN a THEN b\nIF c THEN d"⟩).map
        (fun r => r.id) := by
  decide

/-- C4 (code bug): the specification text `WHEN x THEN y SHALL flag`
compiles to a usable rule whose severity is the string `violation`, which
is not one of `info`, `warning`, `error`, `critical`: `mapSeverity` looks
the SHALL clause up in the merged severity/action lexicon and the `as any`
cast lets the action category `violation` flow into the severity field. -/
theorem claim_C4_bug :
    (parseQualitySpec ⟨"WHEN x THEN y SHALL flag"⟩).rules.map (fun r => r.severity)
        = ["violation"] ∧
    "violation" ∉ (["info", "warning", "error", "critical"] : List String) := by
  decide

/-- C5 (amended): when a template matches a statement but its builder
throws, the compiler records no diagnostic: the failure is caught inside
the dispatch loop, which silently continues with the remaining templates,
and the statement still produces a rule (ultimately the generic fallback),
so compilation never aborts. -/
theorem claim_C5_amended (t : RuleTemplate) (ts : List RuleTemplate)
    (stmt : RuleStatement) (idx : Nat) (gs : Groups) (rest : List Char) (e : String)
    (hm : reSearch rexFuel t.re stmt.text.toList = some (gs, rest))
    (hb : t.build gs stmt idx = .error e) :
    tryTemplates (t :: ts) stmt idx = tryTemplates ts stmt idx ∧
    (parseRuleStatement stmt idx).isSome :=
  ⟨by simp only [tryTemplates, hm, hb], parseRuleStatement_isSome stmt idx⟩

theorem claim_C5_amended_witness :
    tryTemplates
        [⟨"function_rule", functionRuleRE, q08, parseFunctionRule⟩]
        ⟨"function ( should x", 1⟩ 1
      = tryTemplates [] ⟨"function ( should x", 1⟩ 1 ∧
    (parseRuleStatement ⟨"function ( should x", 1⟩ 1).isSome :=
  claim_C5_amended ⟨"function_rule", functionRuleRE, q08, parseFunctionRule⟩ []
    ⟨"function ( should x", 1⟩ 1
    [(1, "function"), (2, "("), (3, "should"), (4, "x")] []
    "SyntaxError: Invalid regular expression" (by decide) (by decide)

/-- C5 (counterexample): the statement `function ( should x` matches the
function template (and no earlier template), its builder throws while
constructing the interpolated regex, yet the compile result records no
error for it — the statement silently becomes the generic fallback rule. -/
theorem claim_C5_counterexample :
    reSearch rexFuel whenThenRE "function ( should x".toList = none ∧
    reSearch rexFuel ifThenRE "function ( should x".toList = none ∧
    reSearch rexFuel functionRuleRE "function ( should x".toList
        = some ([(1, "function"), (2, "("), (3, "should"), (4, "x")], []) ∧
    parseFunctionRule [(1, "function"), (2, "("), (3, "should"), (4, "x")]
        ⟨"function ( should x", 1⟩ 1
      = .error "SyntaxError: Invalid regular expression" ∧
    (parseQualitySpec ⟨"function ( should x"⟩).errors = [] ∧
    (constructedRules ⟨"function ( should x"⟩).map (fun r => r.id) = ["generic_1"] := by
  decide

/-- C7: a statement matching none of the grammar templates becomes a
fallback rule with an always-false custom condition (whose compiled
matcher returns zero matches for every content and language), a suggestion
action replaying the statement text, and confidence exactly 0.3, which
fails the 0.5 usability filter. -/
theorem claim_C7 (stmt : RuleStatement) (idx : Nat)
    (h : ∀ t ∈ ruleTemplates, reSearch rexFuel t.re stmt.text.toList = none) :
    (parseRuleStatement stmt idx).map (fun r => r.id)
        = some ("generic_" ++ toString idx) ∧
    (parseRuleStatement stmt idx).map (fun r => r.condition)
        = some (.custom .alwaysFalse) ∧
    (parseRuleStatement stmt idx).map (fun r => r.action.type) = some "suggestion" ∧
    (parseRuleStatement stmt idx).map (fun r => r.action.message) = some stmt.text ∧
    (parseRuleStatement stmt idx).map (fun r => r.metadata.confidence) = some q03 ∧
    (∀ content language, createMatcher (.custom .alwaysFalse) content language = []) ∧
    decide (q05 < q03) = false := by
  have htt : tryTemplates ruleTemplates stmt idx = none := tryTemplates_none _ _ _ h
  simp only [parseRuleStatement, htt, parseGenericRule]
  refine ⟨rfl, rfl, rfl, rfl, rfl, ?_, by decide⟩
  intro content language
  simp [createMatcher, CustomPred.eval]

theorem claim_C7_witness :
    (parseRuleStatement ⟨"hello world", 1⟩ 1).map (fun r => r.condition)
        = some (.custom .alwaysFalse) ∧
    createMatcher (.custom .alwaysFalse) "some content" "typescript" = [] :=
  ⟨(claim_C7 ⟨"hello world", 1⟩ 1 (by decide)).2.1,
   (claim_C7 ⟨"hello world", 1⟩ 1 (by decide)).2.2.2.2.2.1 "some content" "typescript"⟩

/-- C10: the phrase combining `function` and `more than N` synthesizes a
metric condition named `function lines`, which `calculateMetric` does not
recognize (it evaluates to 0), so for every threshold N ≥ 0 the compiled
matcher returns zero matches on every content and language. -/
theorem claim_C10 (content language : String) (n : Int) (hn : 0 ≤ n) :
    parseCondition "function has more than 20 lines"
        = .metric "function lines" ">" 20 ∧
    calculateMetric content "function lines" = 0 ∧
    createMatcher (.metric "function lines" ">" n) content language = [] := by
  have hmetric : ∀ c : String, calculateMetric c "function lines" = 0 := by
    intro c
    unfold calculateMetric
    rw [if_neg (by decide), if_neg (by decide), if_neg (by decide)]
  refine ⟨by decide, hmetric content, ?_⟩
  simp only [createMatcher]
  rw [hmetric content]
  have hcmp : compareMetric 0 ">" n = false := by
    unfold compareMetric
    rw [if_pos rfl]
    exact decide_eq_false (by omega)
  rw [hcmp]
  simp

theorem claim_C10_witness :
    createMatcher (.metric "function lines" ">" 20) "line1\nline2" "typescript" = [] :=
  (claim_C10 "line1\nline2" "typescript" 20 (by decide)).2.2

theorem applyRules_foldr_init (rules : List ExecutableRule) (content language : String)
    (init : List RuleViolation) :
    rules.foldr (fun r acc => applyRule r content language ++ acc) init
      = applySpecDrivenRules rules content language ++ init := by
  induction rules with
  | nil => simp [applySpecDrivenRules]
  | cons r rs ih =>
    simp only [applySpecDrivenRules, List.foldr_cons] at ih ⊢
    rw [ih, List.append_assoc]

theorem runMatchLoop_prefix_error (act : RuleMatch → Except String RuleViolation) :
    ∀ (ms₁ : List RuleMatch) (m : RuleMatch) (ms₂ : List RuleMatch) (e : String),
      (∀ x ∈ ms₁, (act x).isOk) → act m = .error e →
      runMatchLoop act (ms₁ ++ m :: ms₂)
        = ms₁.filterMap fun x => (act x).toOption := by
  intro ms₁
  induction ms₁ with
  | nil =>
    intro m ms₂ e _ herr
    simp [runMatchLoop, herr]
  | cons a as ih =>
    intro m ms₂ e hprev herr
    have ha := hprev a (by simp)
    obtain ⟨v, hv⟩ : ∃ v, act a = .ok v := by
      cases hae : act a with
      | error err =>
        rw [hae] at ha
        simp [Except.isOk, Except.toBool] at ha
      | ok v => exact ⟨v, rfl⟩
    simp only [List.cons_append, runMatchLoop, hv, List.filterMap_cons,
      Except.toOption, List.append_eq]
    rw [ih m ms₂ e (fun x hx => hprev x (by simp [hx])) herr]
    rfl

/-- C3 (amended): the executable-rule batch loop returns the per-rule
contributions concatenated in rule-registration order (one failing rule
never disturbs the others); a rule whose matcher throws contributes
nothing, while a rule whose action throws on some match keeps the
violations already produced for the earlier matches of that same rule
(they were pushed into the shared output before the exception). -/
theorem claim_C3_amended (pre post : List ExecutableRule) (r : ExecutableRule)
    (content language : String) :
    applySpecDrivenRules (pre ++ r :: post) content language =
      applySpecDrivenRules pre content language ++ applyRule r content language ++
      applySpecDrivenRules post content language ∧
    (∀ e, r.matcher content language = .error e → applyRule r content language = []) ∧
    (∀ (ms₁ : List RuleMatch) (m : RuleMatch) (ms₂ : List RuleMatch) (e : String),
      r.matcher content language = .ok (ms₁ ++ m :: ms₂) →
      (∀ x ∈ ms₁, (r.action x).isOk) →
      r.action m = .error e →
      applyRule r content language = ms₁.filterMap fun x => (r.action x).toOption) := by
  refine ⟨?_, ?_, ?_⟩
  · unfold applySpecDrivenRules
    rw [List.foldr_append]
    have h1 : (r :: post).foldr (fun r acc => applyRule r content language ++ acc) []
        = applyRule r content language ++
          applySpecDrivenRules post content language := by
      simp [applySpecDrivenRules]
    rw [h1, applyRules_foldr_init]
    simp [applySpecDrivenRules, List.append_assoc]
  · intro e he
    unfold applyRule
    rw [he]
  · intro ms₁ m ms₂ e hok hprev herr
    unfold applyRule
    rw [hok]
    exact runMatchLoop_prefix_error r.action ms₁ m ms₂ e hprev herr

theorem claim_C3_amended_witness :
    applyRule
      { id := "A",
        matcher := fun _ _ => Except.ok [⟨1, 0, "t1", "c1"⟩, ⟨2, 0, "t2", "c2"⟩],
        action := fun m =>
          if m.line = 1 then
            Except.ok ⟨"warning", "msgA", 1, 0, "spec-driven-rule", none⟩
          else Except.error "boom" } "content" "typescript" =
      [⟨"warning", "msgA", 1, 0, "spec-driven-rule", none⟩] := by
  have h := (claim_C3_amended [] []
    { id := "A",
      matcher := fun _ _ => Except.ok [⟨1, 0, "t1", "c1"⟩, ⟨2, 0, "t2", "c2"⟩],
      action := fun m =>
        if m.line = 1 then
          Except.ok ⟨"warning", "msgA", 1, 0, "spec-driven-rule", none⟩
        else Except.error "boom" } "content" "typescript").2.2
    [⟨1, 0, "t1", "c1"⟩] ⟨2, 0, "t2", "c2"⟩ [] "boom" rfl (by decide) rfl
  exact h.trans rfl

/-- C3 (counterexample): a batch whose first rule matches twice and whose
action succeeds on the first match but throws on the second still returns
that first violation (followed by the second rule's violation): the
throwing rule's contribution is not omitted, contradicting the claim as
stated. -/
theorem claim_C3_counterexample :
    applySpecDrivenRules
      [{ id := "A",
         matcher := fun _ _ => Except.ok [⟨1, 0, "t1", "c1"⟩, ⟨2, 0, "t2", "c2"⟩],
         action := fun m =>
           if m.line = 1 then
             Except.ok ⟨"warning", "msgA", 1, 0, "spec-driven-rule", none⟩
           else Except.error "boom" },
       { id := "B",
         matcher := fun _ _ => Except.ok [⟨3, 0, "t3", "c3"⟩],
         action := fun _ =>
           Except.ok ⟨"info", "msgB", 3, 0, "spec-driven-rule", none⟩ }]
      "content" "typescript" =
      [⟨"warning", "msgA", 1, 0, "spec-driven-rule", none⟩,
       ⟨"info", "msgB", 3, 0, "spec-driven-rule", none⟩] ∧
    (fun m : RuleMatch =>
        if m.line = 1 then
          Except.ok (⟨"warning", "msgA", 1, 0, "spec-driven-rule", none⟩ : RuleViolation)
        else Except.error "boom") ⟨2, 0, "t2", "c2"⟩ = Except.error "boom" ∧
    ([⟨"warning", "msgA", 1, 0, "spec-driven-rule", none⟩,
      ⟨"info", "msgB", 3, 0, "spec-driven-rule", none⟩] : List RuleViolation) ≠
      [⟨"info", "msgB", 3, 0, "spec-driven-rule", none⟩] := by
  refine ⟨rfl, rfl, by decide⟩

/-- C8: compiling `WHEN lines > 5 THEN warn about file size` yields a
usable metric rule (metric `lines`, operator `>`, threshold 5); executing
it against 7 lines of content produces exactly one violation at line 1,
and against 3 lines zero violations. -/
theorem claim_C8 :
    (parseQualitySpec ⟨"WHEN lines > 5 THEN warn about file size"⟩).rules.map
        (fun r => (r.id, r.condition, r.severity))
      = [("when_then_1", RuleCondition.metric "lines" ">" 5, "warning")] ∧
    applySpecDrivenRules
        (convertToExecutableRules
          (parseQualitySpec ⟨"WHEN lines > 5 THEN warn about file size"⟩).rules)
        "a\nb\nc\nd\ne\nf\ng" "typescript"
      = [⟨"warning", "warn about file size", 1, 1, "spec-driven-rule",
          some "Consider addressing: warn about file size"⟩] ∧
    applySpecDrivenRules
        (convertToExecutableRules
          (parseQualitySpec ⟨"WHEN lines > 5 THEN warn about file size"⟩).rules)
        "a\nb\nc" "typescript" = [] := by
  decide
